import Mathlib

/-!
Verification development for the herb-market stock generator
(`src/main.rs`).

The program reads a TOML config describing an herb catalog, per-rarity
price/likelihood parameters and a set of local biomes, then generates a
randomized stock list and prints it as a table sorted by herb name.

Shallow embedding choices:
* `f32` likelihoods and the uniform samples in `[0,1)` are modelled as
  rationals (`ℚ`); the program only compares them, so order is all that
  matters.
* `u16` prices are modelled as `ℕ` (they never overflow: every price is
  bounded by the config's own `u16` values).  The `u16` quantity counter
  is modelled faithfully: each `quantity += 1` wraps modulo `2^16`
  (release-build semantics; a debug build would panic at the same
  point).
* The random source `rng` is an infinite stream `s : ℕ → ℚ` of abstract
  draws, consumed left to right; `gen_range(0.0f32..1.0f32)` consumes one
  draw and returns it, `gen_range(lo..=hi)` consumes one draw `x` and
  returns `lo + ⌊x * (hi - lo + 1)⌋` (in range whenever `0 ≤ x < 1` and
  `lo ≤ hi`).  A well-formed source has every draw in `[0,1)`.
* The two partial behaviors of the Rust code are made explicit:
  `rand`'s `gen_range` on an empty inclusive range (`lo > hi`) panics,
  modelled as `.error .emptyRange`; the `while` quantity loop may run
  forever, so it takes a fuel parameter and exhaustion is
  `.error .outOfFuel` (true divergence = error for every fuel).
-/

inductive Rarity where
  | Common
  | Uncommon
  | Rare
  | VeryRare
deriving DecidableEq, Repr

open Rarity

def Rarity.next_rarity : Rarity → Option Rarity
  | Common => some Uncommon
  | Uncommon => some Rare
  | Rare => some VeryRare
  | VeryRare => none

inductive Biome where
  | MostTerrain
  | Coastal
  | Underdark
  | Desert
  | Mountain
  | Swamp
  | Forest
  | Arctic
  | Hills
  | Grasslands
deriving DecidableEq, Repr

structure Herb where
  name : String
  rarity : Rarity
  biomes : List Biome
deriving DecidableEq, Repr

structure RarityConfig where
  price_lower : ℕ
  price_upper : ℕ
  likelihood : ℚ
deriving DecidableEq, Repr

structure RarityConfigs where
  common : RarityConfig
  uncommon : RarityConfig
  rare : RarityConfig
  very_rare : RarityConfig
deriving DecidableEq, Repr

def RarityConfigs.config (rc : RarityConfigs) : Rarity → RarityConfig
  | Common => rc.common
  | Uncommon => rc.uncommon
  | Rare => rc.rare
  | VeryRare => rc.very_rare

/-- Note: `local_biomes` is a `HashSet<Biome>` in the source; only membership is
ever queried, so a list models it faithfully. -/
structure Config where
  local_biomes : List Biome
  rarities : RarityConfigs
  herbs : List Herb
deriving DecidableEq, Repr

structure HerbStock where
  herb : Herb
  quantity : ℕ
  price : ℕ
deriving DecidableEq, Repr

/-- The two ways the generator's body can fail to produce a value:
`emptyRange` is `rand`'s panic on `gen_range(lo..=hi)` with `lo > hi`;
`outOfFuel` marks that the quantity `while` loop did not stop within the
given fuel (divergence = `outOfFuel` for every fuel). -/
inductive GenError where
  | emptyRange
  | outOfFuel
deriving DecidableEq, Repr

/-- A well-formed random source: every draw lies in `[0,1)`, as
`gen_range(0.0f32..1.0f32)` guarantees. -/
def wfStream (s : ℕ → ℚ) : Prop :=
  ∀ n, 0 ≤ s n ∧ s n < 1

/-- Line 98 of `main.rs`:
`herb.biomes.iter().any(|b| cfg.local_biomes.contains(&b))`. -/
def isLocal (cfg : Config) (herb : Herb) : Bool :=
  herb.biomes.any fun b => decide (b ∈ cfg.local_biomes)

/-- Lines 99–107 of `main.rs`: the rarity actually used for the draws;
`none` models the `continue` for non-local `VeryRare` herbs. -/
def effectiveRarity (cfg : Config) (herb : Herb) : Option Rarity :=
  if isLocal cfg herb then some herb.rarity else herb.rarity.next_rarity

/-- The `while rng.gen_range(0.0f32..1.0f32) < rarity_config.likelihood`
loop (lines 110–112): `i` is the position in the random stream, `q` the
quantity accumulated so far.  `quantity` is a `u16` in the source, so the
increment at line 111 wraps modulo `2^16 = 65536` (release-build
semantics).  Returns the final quantity and the stream position after the
loop (the terminating draw is consumed too). -/
def quantityLoop (lk : ℚ) (s : ℕ → ℚ) (i q fuel : ℕ) :
    Except GenError (ℕ × ℕ) :=
  match fuel with
  | 0 => .error .outOfFuel
  | fuel + 1 =>
    if s i < lk then quantityLoop lk s (i + 1) ((q + 1) % 65536) fuel
    else .ok (q, i + 1)

/-- Line 116 of `main.rs`, `rng.gen_range(rarity_config.price_range())`,
consuming the
draw `x`: `rand` panics when the inclusive range is empty. -/
def genPrice (rcfg : RarityConfig) (x : ℚ) : Except GenError ℕ :=
  if rcfg.price_lower ≤ rcfg.price_upper then
    .ok (rcfg.price_lower +
      (⌊x * ((rcfg.price_upper - rcfg.price_lower : ℕ) + 1 : ℚ)⌋).toNat)
  else .error .emptyRange

/-- The body of `generate_stock` (lines 95–124), recursing over the herb
list and threading the stream position `i`. -/
def generateStockAux (cfg : Config) (s : ℕ → ℚ) (fuel : ℕ) :
    List Herb → ℕ → Except GenError (List HerbStock)
  | [], _ => .ok []
  | herb :: rest, i =>
    match effectiveRarity cfg herb with
    | none => generateStockAux cfg s fuel rest i
    | some er =>
      let rarity_config := cfg.rarities.config er
      match quantityLoop rarity_config.likelihood s i 0 fuel with
      | .error e => .error e
      | .ok (quantity, j) =>
        if quantity = 0 then generateStockAux cfg s fuel rest j
        else
          match genPrice rarity_config (s j) with
          | .error e => .error e
          | .ok price =>
            match generateStockAux cfg s fuel rest (j + 1) with
            | .error e => .error e
            | .ok tail => .ok (⟨herb, quantity, price⟩ :: tail)

/-- Function `generate_stock(cfg, rng)` itself. -/
def generateStock (cfg : Config) (s : ℕ → ℚ) (fuel : ℕ) :
    Except GenError (List HerbStock) :=
  generateStockAux cfg s fuel cfg.herbs 0

/-- Line 136, `stock.sort_by_key(|herb_stock| herb_stock.herb.name.clone())`:
a stable sort ascending by herb name, split into its comparator and the
sort itself. -/
def byName (a b : HerbStock) : Bool :=
  decide (a.herb.name ≤ b.herb.name)

def presentStock (stockList : List HerbStock) : List HerbStock :=
  stockList.mergeSort byName

/-- Outcome of one whole process run, for the `main` claims. -/
structure ProcResult where
  exitCode : ℕ
  errMsg : Option String
  printedTable : Bool
deriving DecidableEq, Repr

/-- Lines 126–156, `main`: read the config file, parse it, generate and
print.  Reading and TOML parsing are outside the crate, so they enter as
abstract outcomes; the `?` operator propagates their errors out of `main`,
and Rust's `Termination` for `Result` maps `Err(e)` to a nonzero exit
status carrying `e`'s description, `Ok(())` to status zero.  A panic or
divergence inside generation aborts with a nonzero status before any table
is printed. -/
def mainModel (readResult : Except String String)
    (parseResult : String → Except String Config)
    (s : ℕ → ℚ) (fuel : ℕ) : ProcResult :=
  match readResult with
  | .error e => ⟨1, some e, false⟩
  | .ok text =>
    match parseResult text with
    | .error e => ⟨1, some e, false⟩
    | .ok cfg =>
      match generateStock cfg s fuel with
      | .error _ => ⟨101, none, false⟩
      | .ok _ => ⟨0, none, true⟩

/-- Config validity as the spec states it: every tier's likelihood is a
probability in `[0,1)` (all four tiers are present by construction of
`RarityConfigs`). -/
def validLikelihoods (cfg : Config) : Prop :=
  ∀ r : Rarity, 0 ≤ (cfg.rarities.config r).likelihood ∧
    (cfg.rarities.config r).likelihood < 1

/-- Every tier's inclusive price range is nonempty. The Rust code needs
this for the `gen_range(price_range())` call not to panic; nothing in the
deserializer enforces it. -/
def wellPriced (cfg : Config) : Prop :=
  ∀ r : Rarity, (cfg.rarities.config r).price_lower ≤
    (cfg.rarities.config r).price_upper

/-- From every position, the stream eventually produces a draw at or above
every tier's likelihood — exactly what makes each quantity loop stop. -/
def escapes (cfg : Config) (s : ℕ → ℚ) : Prop :=
  ∀ (r : Rarity) (i : ℕ), ∃ n,
    (cfg.rarities.config r).likelihood ≤ s (i + n)

instance {e a : Type} [DecidableEq e] [DecidableEq a] :
    DecidableEq (Except e a) := fun x y =>
  match x, y with
  | .ok u, .ok v =>
    if h : u = v then .isTrue (by rw [h]) else .isFalse (by simp [h])
  | .error u, .error v =>
    if h : u = v then .isTrue (by rw [h]) else .isFalse (by simp [h])
  | .ok _, .error _ => .isFalse (by simp)
  | .error _, .ok _ => .isFalse (by simp)

/-! Concrete fixtures used by witnesses and counterexamples. -/

def qHalf : ℚ := ⟨1, 2, by decide, by decide⟩

def qQuarter : ℚ := ⟨1, 4, by decide, by decide⟩

def qEighth : ℚ := ⟨1, 8, by decide, by decide⟩

def qSixteenth : ℚ := ⟨1, 16, by decide, by decide⟩

/-- The spec's running example: a local Common herb. -/
def wHerb : Herb := ⟨"Sage", Common, [Biome.Forest]⟩

/-- A non-local Common herb. -/
def dHerb : Herb := ⟨"Cactus", Common, [Biome.Desert]⟩

/-- A non-local VeryRare herb (the spec's unavailability example). -/
def vHerb : Herb := ⟨"Dune", VeryRare, [Biome.Desert]⟩

/-- The spec's example configuration, with nonempty price ranges and
likelihoods in `[0,1)`. -/
def wCfg : Config :=
  ⟨[Biome.Forest],
   ⟨⟨1, 2, qHalf⟩, ⟨3, 4, qQuarter⟩, ⟨5, 6, qEighth⟩, ⟨7, 8, qSixteenth⟩⟩,
   [wHerb]⟩

/-- Same, except the Common tier's inclusive price range is empty
(`price_lower = 2 > 1 = price_upper`). -/
def badCfg : Config :=
  ⟨[Biome.Forest],
   ⟨⟨2, 1, qHalf⟩, ⟨3, 4, qQuarter⟩, ⟨5, 6, qEighth⟩, ⟨7, 8, qSixteenth⟩⟩,
   [wHerb]⟩

/-- Same, except the Common tier's likelihood is `1`, outside `[0,1)`. -/
def divCfg : Config :=
  ⟨[Biome.Forest],
   ⟨⟨1, 2, 1⟩, ⟨3, 4, qQuarter⟩, ⟨5, 6, qEighth⟩, ⟨7, 8, qSixteenth⟩⟩,
   [wHerb]⟩

/-- The spec's forced random source: `0.0` for the first draw, `0.5`
afterward. -/
def wStream : ℕ → ℚ := fun n => if n = 0 then 0 else qHalf

/-- A constant random source. -/
def cStream : ℕ → ℚ := fun _ => qHalf

/-- A source whose first `65536` draws are `0` and whose later draws are
`1/2`: against likelihood `1/2` the quantity loop runs `65536` successes
and the `u16` counter wraps to `0`. -/
def bigStream : ℕ → ℚ := fun n => if n < 65536 then 0 else qHalf

/-! Helper lemmas about the quantity loop. -/

theorem quantityLoop_mono {lk : ℚ} {s : ℕ → ℚ} {i q fuel fuel' : ℕ}
    {r : ℕ × ℕ} (h : quantityLoop lk s i q fuel = .ok r)
    (hle : fuel ≤ fuel') : quantityLoop lk s i q fuel' = .ok r := by
  induction fuel generalizing i q fuel' with
  | zero => simp [quantityLoop] at h
  | succ f ih =>
    obtain ⟨f', rfl⟩ : ∃ f', fuel' = f' + 1 :=
      ⟨fuel' - 1, by omega⟩
    rw [quantityLoop] at h ⊢
    by_cases hc : s i < lk
    · simp only [if_pos hc] at h ⊢
      exact ih h (by omega)
    · simpa [if_neg hc] using h

theorem quantityLoop_of_firstFail {lk : ℚ} {s : ℕ → ℚ} {n : ℕ}
    (i q : ℕ) (hq : q < 65536) (hlt : ∀ m < n, s (i + m) < lk)
    (hge : ¬ s (i + n) < lk) {fuel : ℕ} (hfuel : n < fuel) :
    quantityLoop lk s i q fuel = .ok ((q + n) % 65536, i + n + 1) := by
  induction n generalizing i q fuel with
  | zero =>
    obtain ⟨f, rfl⟩ : ∃ f, fuel = f + 1 := ⟨fuel - 1, by omega⟩
    rw [quantityLoop]
    simp only [Nat.add_zero] at hge
    rw [if_neg hge]
    congr 2
    omega
  | succ m ih =>
    obtain ⟨f, rfl⟩ : ∃ f, fuel = f + 1 := ⟨fuel - 1, by omega⟩
    rw [quantityLoop]
    have h0 : s i < lk := by simpa using hlt 0 (by omega)
    simp only [if_pos h0]
    have step : quantityLoop lk s (i + 1) ((q + 1) % 65536) f
        = .ok (((q + 1) % 65536 + m) % 65536, i + 1 + m + 1) := by
      refine ih (i + 1) ((q + 1) % 65536) (by omega) ?_ ?_ (by omega)
      · intro k hk
        have := hlt (k + 1) (by omega)
        simpa [Nat.add_assoc, Nat.add_comm 1 k] using this
      · have heqn : i + 1 + m = i + (m + 1) := by omega
        rw [heqn]; exact hge
    rw [step]
    congr 2 <;> omega

theorem quantityLoop_diverge {lk : ℚ} {s : ℕ → ℚ}
    (hall : ∀ m, s m < lk) (i q fuel : ℕ) :
    quantityLoop lk s i q fuel = .error .outOfFuel := by
  induction fuel generalizing i q with
  | zero => rw [quantityLoop]
  | succ f ih =>
    rw [quantityLoop]
    simp [if_pos (hall i)]
    exact ih (i + 1) ((q + 1) % 65536)

theorem quantityLoop_ok_exists {lk : ℚ} {s : ℕ → ℚ} {i q fuel : ℕ}
    {r : ℕ × ℕ} (h : quantityLoop lk s i q fuel = .ok r) :
    ∃ n, ¬ s (i + n) < lk := by
  induction fuel generalizing i q with
  | zero => simp [quantityLoop] at h
  | succ f ih =>
    rw [quantityLoop] at h
    by_cases hc : s i < lk
    · simp only [if_pos hc] at h
      obtain ⟨n, hn⟩ := ih h
      exact ⟨n + 1, by simpa [Nat.add_assoc, Nat.add_comm 1 n] using hn⟩
    · exact ⟨0, by simpa using hc⟩

/-! Helper lemmas about the price draw. -/

theorem genPrice_ok_bounds {rcfg : RarityConfig} {x : ℚ} {p : ℕ}
    (hx1 : x < 1) (h : genPrice rcfg x = .ok p) :
    rcfg.price_lower ≤ p ∧ p ≤ rcfg.price_upper := by
  rw [genPrice] at h
  by_cases hle : rcfg.price_lower ≤ rcfg.price_upper
  · simp only [if_pos hle, Except.ok.injEq] at h
    subst h
    constructor
    · exact Nat.le_add_right _ _
    · have hN : (0 : ℚ) < ((rcfg.price_upper - rcfg.price_lower : ℕ) + 1 : ℚ) := by
        positivity
      have hmul : x * ((rcfg.price_upper - rcfg.price_lower : ℕ) + 1 : ℚ)
          < ((rcfg.price_upper - rcfg.price_lower : ℕ) + 1 : ℚ) := by
        nlinarith
      have hfl : ⌊x * ((rcfg.price_upper - rcfg.price_lower : ℕ) + 1 : ℚ)⌋
          < ((rcfg.price_upper - rcfg.price_lower : ℕ) + 1 : ℤ) := by
        rw [Int.floor_lt]
        push_cast
        push_cast at hmul
        linarith
      have : (⌊x * ((rcfg.price_upper - rcfg.price_lower : ℕ) + 1 : ℚ)⌋).toNat
          ≤ rcfg.price_upper - rcfg.price_lower := by omega
      omega
  · simp [if_neg hle] at h

theorem genPrice_ok_of_le {rcfg : RarityConfig} (x : ℚ)
    (hle : rcfg.price_lower ≤ rcfg.price_upper) :
    ∃ p, genPrice rcfg x = .ok p := by
  exact ⟨_, by rw [genPrice, if_pos hle]⟩

/-! Helper lemmas about the generator body. -/

theorem generateStockAux_mono {cfg : Config} {s : ℕ → ℚ}
    {fuel fuel' : ℕ} {l : List Herb} {i : ℕ} {r : List HerbStock}
    (h : generateStockAux cfg s fuel l i = .ok r) (hle : fuel ≤ fuel') :
    generateStockAux cfg s fuel' l i = .ok r := by
  induction l generalizing i r with
  | nil => simpa [generateStockAux] using h
  | cons herb rest ih =>
    rw [generateStockAux] at h ⊢
    cases heff : effectiveRarity cfg herb with
    | none =>
      simp only [heff] at h ⊢
      exact ih h
    | some er =>
      simp only [heff] at h ⊢
      cases hq : quantityLoop (cfg.rarities.config er).likelihood s i 0 fuel with
      | error e => simp [hq] at h
      | ok qj =>
        obtain ⟨q, j⟩ := qj
        rw [quantityLoop_mono hq hle]
        simp only [hq] at h
        by_cases hz : q = 0
        · simp only [if_pos hz] at h ⊢
          exact ih h
        · simp only [if_neg hz] at h ⊢
          cases hp : genPrice (cfg.rarities.config er) (s j) with
          | error e => simp [hp] at h
          | ok price =>
            simp only [hp] at h ⊢
            cases ht : generateStockAux cfg s fuel rest (j + 1) with
            | error e => simp [ht] at h
            | ok tail =>
              rw [ih ht]
              simpa [ht] using h

theorem generateStockAux_entries {cfg : Config} {s : ℕ → ℚ}
    {fuel : ℕ} {l : List Herb} {i : ℕ} {r : List HerbStock}
    (hwf : wfStream s) (h : generateStockAux cfg s fuel l i = .ok r) :
    ∀ e ∈ r, 1 ≤ e.quantity ∧
      ∃ er, effectiveRarity cfg e.herb = some er ∧
        (cfg.rarities.config er).price_lower ≤ e.price ∧
        e.price ≤ (cfg.rarities.config er).price_upper := by
  induction l generalizing i r with
  | nil =>
    simp only [generateStockAux, Except.ok.injEq] at h
    subst h
    intro e he
    simp at he
  | cons herb rest ih =>
    rw [generateStockAux] at h
    cases heff : effectiveRarity cfg herb with
    | none =>
      simp only [heff] at h
      exact ih h
    | some er =>
      simp only [heff] at h
      cases hq : quantityLoop (cfg.rarities.config er).likelihood s i 0 fuel with
      | error e => simp [hq] at h
      | ok qj =>
        obtain ⟨q, j⟩ := qj
        simp only [hq] at h
        by_cases hz : q = 0
        · simp only [if_pos hz] at h
          exact ih h
        · simp only [if_neg hz] at h
          cases hp : genPrice (cfg.rarities.config er) (s j) with
          | error e => simp [hp] at h
          | ok price =>
            simp only [hp] at h
            cases ht : generateStockAux cfg s fuel rest (j + 1) with
            | error e => simp [ht] at h
            | ok tail =>
              simp only [ht, Except.ok.injEq] at h
              subst h
              intro e he
              rcases List.mem_cons.mp he with rfl | he'
              · refine ⟨Nat.one_le_iff_ne_zero.mpr hz, er, heff, ?_⟩
                exact genPrice_ok_bounds (hwf j).2 hp
              · exact ih ht e he'

theorem generateStockAux_herbs_sublist {cfg : Config} {s : ℕ → ℚ}
    {fuel : ℕ} {l : List Herb} {i : ℕ} {r : List HerbStock}
    (h : generateStockAux cfg s fuel l i = .ok r) :
    (r.map (fun e => e.herb)).Sublist l := by
  induction l generalizing i r with
  | nil =>
    simp only [generateStockAux, Except.ok.injEq] at h
    subst h
    simp
  | cons herb rest ih =>
    rw [generateStockAux] at h
    cases heff : effectiveRarity cfg herb with
    | none =>
      simp only [heff] at h
      exact (ih h).cons herb
    | some er =>
      simp only [heff] at h
      cases hq : quantityLoop (cfg.rarities.config er).likelihood s i 0 fuel with
      | error e => simp [hq] at h
      | ok qj =>
        obtain ⟨q, j⟩ := qj
        simp only [hq] at h
        by_cases hz : q = 0
        · simp only [if_pos hz] at h
          exact (ih h).cons herb
        · simp only [if_neg hz] at h
          cases hp : genPrice (cfg.rarities.config er) (s j) with
          | error e => simp [hp] at h
          | ok price =>
            simp only [hp] at h
            cases ht : generateStockAux cfg s fuel rest (j + 1) with
            | error e => simp [ht] at h
            | ok tail =>
              simp only [ht, Except.ok.injEq] at h
              subst h
              simpa using (ih ht).cons₂ herb

theorem generateStockAux_total {cfg : Config} {s : ℕ → ℚ}
    (hpr : wellPriced cfg) (hesc : escapes cfg s) :
    ∀ (l : List Herb) (i : ℕ),
      ∃ fuel r, generateStockAux cfg s fuel l i = .ok r := by
  intro l
  induction l with
  | nil => exact fun i => ⟨0, [], rfl⟩
  | cons herb rest ih =>
    intro i
    cases heff : effectiveRarity cfg herb with
    | none =>
      obtain ⟨fuel, r, h⟩ := ih i
      refine ⟨fuel, r, ?_⟩
      rw [generateStockAux]
      simp only [heff]
      exact h
    | some er =>
      obtain ⟨n, hn⟩ := hesc er i
      have hex : ∃ m, ¬ s (i + m) < (cfg.rarities.config er).likelihood :=
        ⟨n, not_lt.mpr hn⟩
      have hge : ¬ s (i + Nat.find hex) < (cfg.rarities.config er).likelihood :=
        Nat.find_spec hex
      have hlt : ∀ m < Nat.find hex,
          s (i + m) < (cfg.rarities.config er).likelihood :=
        fun m hm => not_not.mp (Nat.find_min hex hm)
      have hloop : quantityLoop (cfg.rarities.config er).likelihood s i 0
          (Nat.find hex + 1) =
          .ok ((0 + Nat.find hex) % 65536, i + Nat.find hex + 1) :=
        quantityLoop_of_firstFail i 0 (by omega) hlt hge (by omega)
      by_cases hz : (0 + Nat.find hex) % 65536 = 0
      · obtain ⟨fuel₂, r₂, h₂⟩ := ih (i + Nat.find hex + 1)
        refine ⟨max (Nat.find hex + 1) fuel₂, r₂, ?_⟩
        rw [generateStockAux]
        simp only [heff]
        rw [quantityLoop_mono hloop (le_max_left _ _)]
        simp only [if_pos hz]
        exact generateStockAux_mono h₂ (le_max_right _ _)
      · obtain ⟨p, hprice⟩ := genPrice_ok_of_le (s (i + Nat.find hex + 1)) (hpr er)
        obtain ⟨fuel₂, r₂, h₂⟩ := ih (i + Nat.find hex + 1 + 1)
        refine ⟨max (Nat.find hex + 1) fuel₂,
          ⟨herb, (0 + Nat.find hex) % 65536, p⟩ :: r₂, ?_⟩
        rw [generateStockAux]
        simp only [heff]
        rw [quantityLoop_mono hloop (le_max_left _ _)]
        simp only [if_neg hz]
        rw [hprice, generateStockAux_mono h₂ (le_max_right _ _)]

theorem isLocal_iff {cfg : Config} {h : Herb} :
    isLocal cfg h = true ↔ ∃ b ∈ h.biomes, b ∈ cfg.local_biomes := by
  simp [isLocal, List.any_eq_true]

theorem generateStockAux_mem_eff {cfg : Config} {s : ℕ → ℚ}
    {fuel : ℕ} {l : List Herb} {i : ℕ} {r : List HerbStock}
    (h : generateStockAux cfg s fuel l i = .ok r) :
    ∀ e ∈ r, ∃ er, effectiveRarity cfg e.herb = some er := by
  induction l generalizing i r with
  | nil =>
    simp only [generateStockAux, Except.ok.injEq] at h
    subst h
    intro e he
    simp at he
  | cons herb rest ih =>
    rw [generateStockAux] at h
    cases heff : effectiveRarity cfg herb with
    | none =>
      simp only [heff] at h
      exact ih h
    | some er =>
      simp only [heff] at h
      cases hq : quantityLoop (cfg.rarities.config er).likelihood s i 0 fuel with
      | error e => simp [hq] at h
      | ok qj =>
        obtain ⟨q, j⟩ := qj
        simp only [hq] at h
        by_cases hz : q = 0
        · simp only [if_pos hz] at h
          exact ih h
        · simp only [if_neg hz] at h
          cases hp : genPrice (cfg.rarities.config er) (s j) with
          | error e => simp [hp] at h
          | ok price =>
            simp only [hp] at h
            cases ht : generateStockAux cfg s fuel rest (j + 1) with
            | error e => simp [ht] at h
            | ok tail =>
              simp only [ht, Except.ok.injEq] at h
              subst h
              intro e he
              rcases List.mem_cons.mp he with rfl | he'
              · exact ⟨er, heff⟩
              · exact ih ht e he'

theorem wStream_wf : wfStream wStream := by
  intro n
  unfold wStream
  split
  · exact ⟨le_refl 0, by decide⟩
  · exact ⟨by decide, by decide⟩

theorem cStream_wf : wfStream cStream := by
  intro n
  show 0 ≤ qHalf ∧ qHalf < 1
  exact ⟨by decide, by decide⟩

/-! The claims. -/

/-- C1: every `StockEntry` returned by `generate_stock` has quantity at
least 1, and its price lies within `[price_lower, price_upper]` of the
`RarityConfig` of the herb's effective rarity (the rarity actually used
for its draws). -/
theorem C1_stock_invariant {cfg : Config} {s : ℕ → ℚ} {fuel : ℕ}
    {result : List HerbStock} (hwf : wfStream s)
    (h : generateStock cfg s fuel = .ok result) :
    ∀ e ∈ result, 1 ≤ e.quantity ∧
      ∃ er, effectiveRarity cfg e.herb = some er ∧
        (cfg.rarities.config er).price_lower ≤ e.price ∧
        e.price ≤ (cfg.rarities.config er).price_upper :=
  generateStockAux_entries hwf h

theorem C1_witness :
    1 ≤ (HerbStock.mk wHerb 1 2).quantity ∧
    ∃ er, effectiveRarity wCfg (HerbStock.mk wHerb 1 2).herb = some er ∧
      (wCfg.rarities.config er).price_lower ≤ (HerbStock.mk wHerb 1 2).price ∧
      (HerbStock.mk wHerb 1 2).price ≤ (wCfg.rarities.config er).price_upper :=
  @C1_stock_invariant wCfg wStream 5 [HerbStock.mk wHerb 1 2]
    wStream_wf (by with_unfolding_all decide)
    (HerbStock.mk wHerb 1 2) (by simp)

/-- C2: a herb with some biome in `local_biomes` keeps its declared
rarity; a non-local herb whose declared rarity is not `VeryRare` gets
exactly the next tier of the successor order
Common→Uncommon→Rare→VeryRare as its effective rarity. -/
theorem C2_effective_rarity (cfg : Config) (h : Herb) :
    ((∃ b ∈ h.biomes, b ∈ cfg.local_biomes) →
      effectiveRarity cfg h = some h.rarity) ∧
    ((∀ b ∈ h.biomes, b ∉ cfg.local_biomes) → h.rarity ≠ VeryRare →
      ((h.rarity = Common ∧ effectiveRarity cfg h = some Uncommon) ∨
       (h.rarity = Uncommon ∧ effectiveRarity cfg h = some Rare) ∨
       (h.rarity = Rare ∧ effectiveRarity cfg h = some VeryRare))) := by
  constructor
  · intro hex
    rw [effectiveRarity, if_pos (isLocal_iff.mpr hex)]
  · intro hnone hne
    have hloc : ¬ isLocal cfg h = true := by
      intro hcontra
      obtain ⟨b, hb, hbl⟩ := isLocal_iff.mp hcontra
      exact hnone b hb hbl
    rw [effectiveRarity, if_neg hloc]
    cases hr : h.rarity with
    | Common => exact Or.inl ⟨rfl, by rw [Rarity.next_rarity]⟩
    | Uncommon => exact Or.inr (Or.inl ⟨rfl, by rw [Rarity.next_rarity]⟩)
    | Rare => exact Or.inr (Or.inr ⟨rfl, by rw [Rarity.next_rarity]⟩)
    | VeryRare => exact absurd hr hne

theorem C2_witness :
    effectiveRarity wCfg wHerb = some wHerb.rarity ∧
    ((dHerb.rarity = Common ∧ effectiveRarity wCfg dHerb = some Uncommon) ∨
     (dHerb.rarity = Uncommon ∧ effectiveRarity wCfg dHerb = some Rare) ∨
     (dHerb.rarity = Rare ∧ effectiveRarity wCfg dHerb = some VeryRare)) :=
  ⟨(C2_effective_rarity wCfg wHerb).1
      ⟨Biome.Forest, by decide, by decide⟩,
   (C2_effective_rarity wCfg dHerb).2
      (by decide) (by decide)⟩

/-- C3: a herb with no biome in `local_biomes` and declared rarity
`VeryRare` is skipped outright: processing it leaves the random stream
position untouched (no randomness consumed), and no output entry of any
run is such a herb. -/
theorem C3_nonlocal_veryrare_unavailable :
    (∀ (cfg : Config) (s : ℕ → ℚ) (fuel : ℕ) (h : Herb)
        (rest : List Herb) (i : ℕ),
      (∀ b ∈ h.biomes, b ∉ cfg.local_biomes) → h.rarity = VeryRare →
      generateStockAux cfg s fuel (h :: rest) i =
        generateStockAux cfg s fuel rest i) ∧
    (∀ (cfg : Config) (s : ℕ → ℚ) (fuel : ℕ) (result : List HerbStock),
      generateStock cfg s fuel = .ok result →
      ∀ e ∈ result,
        ¬ ((∀ b ∈ e.herb.biomes, b ∉ cfg.local_biomes) ∧
           e.herb.rarity = VeryRare)) := by
  constructor
  · intro cfg s fuel h rest i hnone hvr
    have hloc : ¬ isLocal cfg h = true := by
      intro hcontra
      obtain ⟨b, hb, hbl⟩ := isLocal_iff.mp hcontra
      exact hnone b hb hbl
    have heff : effectiveRarity cfg h = none := by
      rw [effectiveRarity, if_neg hloc, hvr, Rarity.next_rarity]
    rw [generateStockAux]
    simp only [heff]
  · intro cfg s fuel result h e he ⟨hnone, hvr⟩
    obtain ⟨er, her⟩ := generateStockAux_mem_eff h e he
    have hloc : ¬ isLocal cfg e.herb = true := by
      intro hcontra
      obtain ⟨b, hb, hbl⟩ := isLocal_iff.mp hcontra
      exact hnone b hb hbl
    rw [effectiveRarity, if_neg hloc, hvr, Rarity.next_rarity] at her
    exact Option.noConfusion her

theorem C3_witness :
    generateStockAux wCfg wStream 5 [vHerb] 0 =
      generateStockAux wCfg wStream 5 [] 0 :=
  C3_nonlocal_veryrare_unavailable.1 wCfg wStream 5 vHerb [] 0
    (by decide) (by decide)

theorem byName_trans :
    ∀ (a b c : HerbStock), byName a b → byName b c → byName a c := by
  intro a b c hab hbc
  exact decide_eq_true
    (le_trans (of_decide_eq_true hab) (of_decide_eq_true hbc))

theorem byName_total : ∀ (a b : HerbStock), byName a b || byName b a := by
  intro a b
  simpa [byName, Bool.or_eq_true, decide_eq_true_eq] using
    le_total a.herb.name b.herb.name

/-- C4 (counterexample): the claim that the stored quantity always equals
the count of consecutive below-likelihood draws is false of the program:
`quantity` is a `u16`, so a run of `65536` consecutive successes (first
failure at draw index `65536`) wraps the counter to `0`, not `65536`. -/
theorem C4_counterexample :
    ¬ (∀ (lk : ℚ) (s : ℕ → ℚ) (i n fuel : ℕ),
      (∀ m < n, s (i + m) < lk) → ¬ s (i + n) < lk → n < fuel →
      quantityLoop lk s i 0 fuel = .ok (n, i + n + 1)) := by
  intro hclaim
  have hlt : ∀ m < 65536, bigStream (0 + m) < qHalf := by
    intro m hm
    have hm0 : 0 + m < 65536 := by omega
    unfold bigStream
    rw [if_pos hm0]
    decide
  have hge : ¬ bigStream (0 + 65536) < qHalf := by decide
  have hfalse := hclaim qHalf bigStream 0 65536 65538 hlt hge (by omega)
  have htrue := quantityLoop_of_firstFail 0 0 (by omega) hlt hge
    (by omega : (65536 : ℕ) < 65538)
  rw [hfalse] at htrue
  simp only [Except.ok.injEq, Prod.mk.injEq] at htrue
  omega

/-- C4 (amended): for a herb that passed the effective-rarity step, the
stored quantity is the count of consecutive stream draws strictly below
the tier's likelihood reduced modulo `2^16` (the `u16` wraparound), the
loop stopping at (and consuming) the first draw at or above it — so it
equals the count exactly whenever the count is below `65536`; a stored
quantity of 0 skips the herb and draws no price: processing moves on
having consumed exactly the loop's draws. -/
theorem C4_quantity_geometric_amended :
    (∀ (lk : ℚ) (s : ℕ → ℚ) (i n fuel : ℕ),
      (∀ m < n, s (i + m) < lk) → ¬ s (i + n) < lk → n < fuel →
      quantityLoop lk s i 0 fuel = .ok (n % 65536, i + n + 1)) ∧
    (∀ (lk : ℚ) (s : ℕ → ℚ) (i n fuel : ℕ),
      (∀ m < n, s (i + m) < lk) → ¬ s (i + n) < lk → n < fuel →
      n < 65536 →
      quantityLoop lk s i 0 fuel = .ok (n, i + n + 1)) ∧
    (∀ (cfg : Config) (s : ℕ → ℚ) (fuel : ℕ) (h : Herb)
        (rest : List Herb) (i : ℕ) (er : Rarity),
      effectiveRarity cfg h = some er →
      ¬ s i < (cfg.rarities.config er).likelihood → 0 < fuel →
      generateStockAux cfg s fuel (h :: rest) i =
        generateStockAux cfg s fuel rest (i + 1)) := by
  refine ⟨?_, ?_, ?_⟩
  · intro lk s i n fuel hlt hge hfuel
    simpa using quantityLoop_of_firstFail i 0 (by omega) hlt hge hfuel
  · intro lk s i n fuel hlt hge hfuel hn
    have hmod := quantityLoop_of_firstFail i 0 (by omega) hlt hge hfuel
    rw [hmod]
    congr 2
    omega
  · intro cfg s fuel h rest i er heff hge hfuel
    obtain ⟨f, rfl⟩ : ∃ f, fuel = f + 1 := ⟨fuel - 1, by omega⟩
    rw [generateStockAux]
    simp only [heff]
    rw [quantityLoop]
    simp [if_neg hge]

theorem C4_witness :
    quantityLoop qHalf wStream 0 0 5 = .ok (1, 2) ∧
    generateStockAux wCfg cStream 5 [wHerb] 0 =
      generateStockAux wCfg cStream 5 [] 1 := by
  constructor
  · exact C4_quantity_geometric_amended.2.1 qHalf wStream 0 1 5
      (by
        intro m hm
        have hm0 : m = 0 := by omega
        subst hm0
        decide)
      (by decide) (by decide) (by decide)
  · exact C4_quantity_geometric_amended.2.2 wCfg cStream 5 wHerb [] 0 Common
      (by with_unfolding_all decide) (by with_unfolding_all decide)
      (by decide)

/-- C5: the list returned by `generate_stock` preserves catalog order
(its herbs form a sublist of `config.herbs`), and the presented rows are
sorted ascending by herb name. -/
theorem C5_catalog_order_and_sort {cfg : Config} {s : ℕ → ℚ} {fuel : ℕ}
    {result : List HerbStock}
    (h : generateStock cfg s fuel = .ok result) :
    (result.map fun e => e.herb).Sublist cfg.herbs ∧
    (presentStock result).Pairwise
      (fun a b => a.herb.name ≤ b.herb.name) := by
  refine ⟨generateStockAux_herbs_sublist h, ?_⟩
  have hs := List.sorted_mergeSort byName_trans byName_total result
  exact hs.imp fun hab => of_decide_eq_true hab

theorem C5_witness :
    (([HerbStock.mk wHerb 1 2]).map fun e => e.herb).Sublist wCfg.herbs ∧
    (presentStock [HerbStock.mk wHerb 1 2]).Pairwise
      (fun a b => a.herb.name ≤ b.herb.name) :=
  @C5_catalog_order_and_sort wCfg wStream 5 [HerbStock.mk wHerb 1 2]
    (by with_unfolding_all decide)

/-- C6 (counterexample): a config that is valid in the claim's sense —
every tier's likelihood lies in `[0,1)` and all four tiers are configured
— and a well-formed random source on which `generate_stock` nevertheless
fails: the Common tier's empty inclusive price range makes the price draw
panic. -/
theorem C6_counterexample :
    validLikelihoods badCfg ∧ wfStream wStream ∧
    generateStock badCfg wStream 5 = .error .emptyRange ∧
    ¬ ∃ fuel result, generateStock badCfg wStream fuel = .ok result := by
  refine ⟨?_, wStream_wf, by with_unfolding_all decide, ?_⟩
  · intro r
    cases r <;> exact ⟨by decide, by decide⟩
  · rintro ⟨fuel, result, h⟩
    match fuel, h with
    | 0, h =>
      have h0 : generateStock badCfg wStream 0 = .error .outOfFuel := by
        with_unfolding_all decide
      rw [h0] at h
      exact Except.noConfusion h
    | 1, h =>
      have h1 : generateStock badCfg wStream 1 = .error .outOfFuel := by
        with_unfolding_all decide
      rw [h1] at h
      exact Except.noConfusion h
    | (f + 2), h =>
      have hbase : quantityLoop (badCfg.rarities.config Common).likelihood
          wStream 0 0 2 = .ok (1, 2) := by with_unfolding_all decide
      have hloop : quantityLoop (badCfg.rarities.config Common).likelihood
          wStream 0 0 (f + 2) = .ok (1, 2) :=
        quantityLoop_mono hbase (by omega)
      have heff : effectiveRarity badCfg wHerb = some Common := by
        with_unfolding_all decide
      have hgp : genPrice (badCfg.rarities.config Common) (wStream 2) =
          .error .emptyRange := by with_unfolding_all decide
      have hherbs : badCfg.herbs = [wHerb] := rfl
      rw [generateStock, hherbs, generateStockAux] at h
      simp [heff, hloop, hgp] at h

/-- C6 (amended): for every config whose likelihoods lie in `[0,1)` and
whose four tiers additionally all have `price_lower ≤ price_upper`, and
every random source from which every quantity loop eventually draws a
stopping sample, `generate_stock` completes without error. -/
theorem C6_no_failure_amended {cfg : Config} {s : ℕ → ℚ}
    (_hval : validLikelihoods cfg) (hpr : wellPriced cfg)
    (hesc : escapes cfg s) :
    ∃ fuel result, generateStock cfg s fuel = .ok result := by
  obtain ⟨fuel, r, h⟩ := generateStockAux_total hpr hesc cfg.herbs 0
  exact ⟨fuel, r, h⟩

theorem C6_witness :
    ∃ fuel result, generateStock wCfg cStream fuel = .ok result :=
  @C6_no_failure_amended wCfg cStream
    (by intro r; cases r <;> exact ⟨by decide, by decide⟩)
    (by intro r; cases r <;> decide)
    (by
      intro r i
      refine ⟨0, ?_⟩
      show (wCfg.rarities.config r).likelihood ≤ qHalf
      cases r <;> decide)

/-- C7: `generate_stock` is deterministic — two runs with the same config
and the same random-source stream return identical stock lists. -/
theorem C7_deterministic (cfg : Config) (s₁ s₂ : ℕ → ℚ) (fuel : ℕ)
    (h : ∀ n, s₁ n = s₂ n) :
    generateStock cfg s₁ fuel = generateStock cfg s₂ fuel := by
  rw [funext h]

theorem C7_witness :
    generateStock wCfg wStream 5 = generateStock wCfg wStream 5 :=
  C7_deterministic wCfg wStream wStream 5 (fun _ => rfl)

/-- C8: a config read failure or a parse failure terminates the process
with exit status 1 (nonzero), carrying the underlying error description,
with nothing printed; when reading, parsing and generation all succeed the
exit status is 0 and the table is printed. -/
theorem C8_exit_behavior (readResult : Except String String)
    (parseResult : String → Except String Config)
    (s : ℕ → ℚ) (fuel : ℕ) :
    (∀ e, readResult = .error e →
      mainModel readResult parseResult s fuel = ⟨1, some e, false⟩) ∧
    (∀ text e, readResult = .ok text → parseResult text = .error e →
      mainModel readResult parseResult s fuel = ⟨1, some e, false⟩) ∧
    (∀ text cfg result, readResult = .ok text →
      parseResult text = .ok cfg → generateStock cfg s fuel = .ok result →
      mainModel readResult parseResult s fuel = ⟨0, none, true⟩) := by
  refine ⟨?_, ?_, ?_⟩
  · intro e he
    simp [mainModel, he]
  · intro text e hr hp
    simp [mainModel, hr, hp]
  · intro text cfg result hr hp hg
    simp [mainModel, hr, hp, hg]

theorem C8_witness :
    mainModel (.error "no such file") (fun _ => .ok wCfg) wStream 5 =
      ⟨1, some "no such file", false⟩ :=
  (C8_exit_behavior (.error "no such file") (fun _ => .ok wCfg)
      wStream 5).1 "no such file" rfl

/-- C9: the quantity loop terminates exactly when the stream eventually
yields a draw at or above the likelihood; with a tier likelihood ≥ 1 and
draws confined to `[0,1)`, any herb reaching that tier makes
`generate_stock` run out of every fuel bound, i.e. diverge. -/
theorem C9_loop_termination :
    (∀ (lk : ℚ) (s : ℕ → ℚ) (i : ℕ),
      (∃ fuel r, quantityLoop lk s i 0 fuel = .ok r) ↔
      (∃ n, lk ≤ s (i + n))) ∧
    (∀ (cfg : Config) (s : ℕ → ℚ) (h : Herb) (rest : List Herb)
        (i fuel : ℕ) (er : Rarity),
      wfStream s → effectiveRarity cfg h = some er →
      1 ≤ (cfg.rarities.config er).likelihood →
      generateStockAux cfg s fuel (h :: rest) i =
        .error .outOfFuel) := by
  constructor
  · intro lk s i
    constructor
    · rintro ⟨fuel, r, h⟩
      obtain ⟨n, hn⟩ := quantityLoop_ok_exists h
      exact ⟨n, not_lt.mp hn⟩
    · rintro ⟨n, hn⟩
      have hex : ∃ m, ¬ s (i + m) < lk := ⟨n, not_lt.mpr hn⟩
      have hge := Nat.find_spec hex
      have hlt : ∀ m < Nat.find hex, s (i + m) < lk :=
        fun m hm => not_not.mp (Nat.find_min hex hm)
      exact ⟨Nat.find hex + 1, _,
        quantityLoop_of_firstFail i 0 (by omega) hlt hge (by omega)⟩
  · intro cfg s h rest i fuel er hwf heff hlk
    have hall : ∀ m, s m < (cfg.rarities.config er).likelihood :=
      fun m => lt_of_lt_of_le (hwf m).2 hlk
    rw [generateStockAux]
    simp only [heff]
    rw [quantityLoop_diverge hall i 0 fuel]

theorem C9_witness :
    generateStockAux divCfg cStream 3 [wHerb] 0 = .error .outOfFuel :=
  C9_loop_termination.2 divCfg cStream wHerb [] 0 3 Common cStream_wf
    (by with_unfolding_all decide) (by with_unfolding_all decide)

/-- C10: each catalog herb yields at most one entry per run (counted with
multiplicity against the catalog), and every emitted entry stores a herb
equal to a catalog entry exactly; the config itself is never modified
(the generator is a pure function of it). -/
theorem C10_one_entry_per_herb {cfg : Config} {s : ℕ → ℚ} {fuel : ℕ}
    {result : List HerbStock}
    (h : generateStock cfg s fuel = .ok result) :
    (∀ hb : Herb,
      (result.map fun e => e.herb).count hb ≤ cfg.herbs.count hb) ∧
    (∀ e ∈ result, e.herb ∈ cfg.herbs) := by
  have hsub := generateStockAux_herbs_sublist h
  refine ⟨fun hb => hsub.count_le hb, fun e he => hsub.subset ?_⟩
  exact List.mem_map_of_mem _ he

theorem C10_witness :
    (∀ hb : Herb,
      (([HerbStock.mk wHerb 1 2]).map fun e => e.herb).count hb ≤
        wCfg.herbs.count hb) ∧
    (∀ e ∈ [HerbStock.mk wHerb 1 2], e.herb ∈ wCfg.herbs) :=
  @C10_one_entry_per_herb wCfg wStream 5 [HerbStock.mk wHerb 1 2]
    (by with_unfolding_all decide)
